import Mathlib

/-!
A shallow embedding of the seastar counted-resource semaphore
(`include/seastar/core/semaphore.hh`): the `basic_semaphore` counter,
FIFO wait list, wake loop and broken lifecycle, and the
`semaphore_units` scoped handle, together with proofs about them.
Machine integers are modelled by `Int`/`Nat` (the spec declares counter
overflow undefined behaviour, so no wraparound is modelled); exceptions
are modelled by an explicit error type; the promise of a waiter is modelled
by a numeric identity so that completions can be tracked.
-/

namespace SeastarSem

/-- Errors around the semaphore: the exception-factory policy products
`timeout()`, `broken()` and `aborted()` products, the
`std::invalid_argument` thrown by handle operations, and arbitrary
caller-supplied exceptions passed to `broken(e)` (a numeric payload). -/
inductive SemErr where
  | timedOut
  | brokenDefault
  | aborted
  | invalidArgument
  | custom (payload : Nat)
deriving DecidableEq, Repr

/-- A queued waiter record: `nr` is the requested amount
(`entry::nr` / `basic_waiter::nr`); `id` models the identity of the
promise of the record so completions can be tracked. -/
structure Waiter where
  id : Nat
  nr : Nat
deriving DecidableEq, Repr

/-- Semaphore state: `count` is the `ssize_t _count`, `ex` the latched
`std::exception_ptr _ex` (`none` meaning null), `wait_list` the FIFO of
waiter records with the front first.  `next_id` dispenses fresh waiter
identities (it has no C++ counterpart; promises are identified by
address there). -/
structure Semaphore where
  count : Int
  ex : Option SemErr
  wait_list : List Waiter
  next_id : Nat
deriving DecidableEq, Repr

/-- `basic_semaphore(size_t count)`: the given number of initial units,
no latched error, empty wait list. -/
def Semaphore.mk0 (count : Nat) : Semaphore := ⟨count, none, [], 0⟩

/-- The counter test `c >= 0 && static_cast<size_t>(c) >= nr`. -/
def availCond (c : Int) (nr : Nat) : Bool :=
  decide (0 ≤ c) && decide ((nr : Int) ≤ c)

/-- `has_available_units(nr)`:
`_count >= 0 && static_cast<size_t>(_count) >= nr`. -/
def Semaphore.has_available_units (s : Semaphore) (nr : Nat) : Bool :=
  availCond s.count nr

/-- `may_proceed(nr)`: `has_available_units(nr) && _wait_list.empty()`. -/
def Semaphore.may_proceed (s : Semaphore) (nr : Nat) : Bool :=
  s.has_available_units nr && s.wait_list.isEmpty

/-- Fulfilment delivered to the promise of a queued waiter. -/
inductive Completion where
  | success
  | failure (e : SemErr)
deriving DecidableEq, Repr

/-- Immediate result of an acquire call: a ready future, an enqueued
waiter (identified by its record id), or an immediately exceptional
future. -/
inductive WaitOutcome where
  | ready
  | pending (id : Nat)
  | failed (e : SemErr)
deriving DecidableEq, Repr

/-- The wake loop of `signal`: while the wait list is non-empty and
`has_available_units(front.nr)` holds, pop the front, charge its
request to the counter and fulfil its promise.  Returns the final
counter, the remaining queue, and the ids of the waiters served in
order. -/
def wakeLoop : Int → List Waiter → Int × List Waiter × List Nat
  | c, [] => (c, [], [])
  | c, w :: rest =>
    if availCond c w.nr then
      let r := wakeLoop (c - w.nr) rest
      (r.1, r.2.1, w.id :: r.2.2)
    else (c, w :: rest, [])

/-- `signal(nr)`: a no-op when `_ex` is latched; otherwise
`_count += nr` followed by the FIFO wake loop.  Also returns the
completions fulfilled, in service order. -/
def Semaphore.signal (s : Semaphore) (nr : Nat) :
    Semaphore × List (Nat × Completion) :=
  match s.ex with
  | some _ => (s, [])
  | none =>
    let r := wakeLoop (s.count + nr) s.wait_list
    ({ s with count := r.1, wait_list := r.2.1 },
     r.2.2.map (fun i => (i, Completion.success)))

/-- `consume(nr)`: a no-op when `_ex` is latched; otherwise decrements
the counter unconditionally (it may go negative). -/
def Semaphore.consume (s : Semaphore) (nr : Nat) : Semaphore :=
  match s.ex with
  | some _ => s
  | none => { s with count := s.count - nr }

/-- `try_wait(nr)`: when `may_proceed(nr)`, decrement and report
success; otherwise leave the state alone and report failure. -/
def Semaphore.try_wait (s : Semaphore) (nr : Nat) : Semaphore × Bool :=
  if s.may_proceed nr then ({ s with count := s.count - nr }, true)
  else (s, false)

/-- `current()`: `std::max(_count, ssize_t(0))`, as a `size_t`. -/
def Semaphore.current (s : Semaphore) : Nat := s.count.toNat

/-- `available_units()`: the raw signed counter. -/
def Semaphore.available_units (s : Semaphore) : Int := s.count

/-- `waiters()`: the wait-list length. -/
def Semaphore.waiters (s : Semaphore) : Nat := s.wait_list.length

/-- `broken(xp)`: latch the error, zero the counter, and drain the wait
list front to back, failing every queued waiter with the latched
error. -/
def Semaphore.broken (s : Semaphore) (e : SemErr) :
    Semaphore × List (Nat × Completion) :=
  ({ count := 0, ex := some e, wait_list := [], next_id := s.next_id },
   s.wait_list.map (fun w => (w.id, Completion.failure e)))

/-- `wait(nr)` (equivalently `wait(time_point::max(), nr)`): if
`may_proceed(nr)`, take the units and return a ready future; else if
`_ex` is latched, fail with it; else enqueue a waiter at the back. -/
def Semaphore.wait (s : Semaphore) (nr : Nat) : Semaphore × WaitOutcome :=
  if s.may_proceed nr then
    ({ s with count := s.count - nr }, WaitOutcome.ready)
  else
    match s.ex with
    | some e => (s, WaitOutcome.failed e)
    | none =>
      ({ s with wait_list := s.wait_list ++ [⟨s.next_id, nr⟩],
                next_id := s.next_id + 1 },
       WaitOutcome.pending s.next_id)

/-- `wait(time_point timeout, size_t nr)` in the clock-checking variant
of the source: after the `may_proceed` and `_ex` checks, a deadline at
or before `Clock::now()` fails immediately with the policy timeout
error; otherwise a waiter with an armed timer is enqueued.  Time points
are modelled by `Nat`. -/
def Semaphore.wait_until (s : Semaphore) (now deadline : Nat) (nr : Nat) :
    Semaphore × WaitOutcome :=
  if s.may_proceed nr then
    ({ s with count := s.count - nr }, WaitOutcome.ready)
  else
    match s.ex with
    | some e => (s, WaitOutcome.failed e)
    | none =>
      if deadline ≤ now then (s, WaitOutcome.failed SemErr.timedOut)
      else
        ({ s with wait_list := s.wait_list ++ [⟨s.next_id, nr⟩],
                  next_id := s.next_id + 1 },
         WaitOutcome.pending s.next_id)

/-- `wait(abort_source& as, size_t nr)`: after the `may_proceed` and
`_ex` checks, an already-requested abort fails immediately with the
aborted error; otherwise a waiter subscribed to the abort source is
enqueued. -/
def Semaphore.wait_abortable (s : Semaphore) (abort_requested : Bool)
    (nr : Nat) : Semaphore × WaitOutcome :=
  if s.may_proceed nr then
    ({ s with count := s.count - nr }, WaitOutcome.ready)
  else
    match s.ex with
    | some e => (s, WaitOutcome.failed e)
    | none =>
      if abort_requested then (s, WaitOutcome.failed SemErr.aborted)
      else
        ({ s with wait_list := s.wait_list ++ [⟨s.next_id, nr⟩],
                  next_id := s.next_id + 1 },
         WaitOutcome.pending s.next_id)

/-- The timer-expiry / abort-subscription callback firing on the queued
waiter with identity `wid`: the record is unlinked from the wait list
wherever it sits and its promise fails with the timeout or aborted
error.  No wake loop runs on this path (`expiry_handler` only sets the
exception; `basic_waiter::abort` only calls `set_exception`). -/
def Semaphore.cancel (s : Semaphore) (wid : Nat) (e : SemErr) :
    Semaphore × List (Nat × Completion) :=
  if s.wait_list.any (fun w => w.id == wid) then
    ({ s with wait_list := s.wait_list.filter (fun w => w.id ≠ wid) },
     [(wid, Completion.failure e)])
  else (s, [])

/-- The `semaphore_units` scoped handle: `_n` units presently held.  The
`_sem` backreference is modelled by passing the semaphore state
explicitly to the operations that may reach it.  The release-build
outstanding-units bookkeeping (`add/sub_outstanding_units`) compiles to
no-ops and is not modelled. -/
structure SemUnits where
  n : Nat
deriving DecidableEq, Repr

/-- Result of `get_units`: a ready handle, a pending waiter, or an
immediate failure. -/
inductive UnitsOutcome where
  | ready (h : SemUnits)
  | pending (id : Nat)
  | failed (e : SemErr)
deriving DecidableEq, Repr

/-- Free function `get_units(sem, units)`: `sem.wait(units)` and, on a
ready future, a `semaphore_units{sem, units}` handle. -/
def get_units (s : Semaphore) (units : Nat) : Semaphore × UnitsOutcome :=
  let r := s.wait units
  (r.1,
   match r.2 with
   | WaitOutcome.ready => UnitsOutcome.ready ⟨units⟩
   | WaitOutcome.pending i => UnitsOutcome.pending i
   | WaitOutcome.failed e => UnitsOutcome.failed e)

/-- `semaphore_units::count()`. -/
def SemUnits.count (u : SemUnits) : Nat := u.n

/-- `semaphore_units::return_units(units)`: for a nonzero amount, a
request above the held count throws `std::invalid_argument` (state
untouched); otherwise `_n -= units` and `_sem->signal(units)`.  A zero
amount is a no-op.  Returns the remaining held count on success,
together with the updated semaphore. -/
def SemUnits.return_units (u : SemUnits) (s : Semaphore) (units : Nat) :
    Except SemErr (SemUnits × Nat) × Semaphore :=
  if units ≠ 0 then
    if units > u.n then (Except.error SemErr.invalidArgument, s)
    else (Except.ok (⟨u.n - units⟩, u.n - units), (s.signal units).1)
  else (Except.ok (u, u.n), s)

/-- `semaphore_units::return_all()` (also the body of the destructor): if any
units are held, signal the semaphore by them and clear the handle. -/
def SemUnits.return_all (u : SemUnits) (s : Semaphore) :
    SemUnits × Semaphore :=
  if u.n ≠ 0 then (⟨0⟩, (s.signal u.n).1) else (u, s)

/-- `semaphore_units::release()`: clear `_n` without signalling and
return the quantity that was held. -/
def SemUnits.release (u : SemUnits) : SemUnits × Nat := (⟨0⟩, u.n)

/-- `semaphore_units::split(units)`: a request above the held count
throws `std::invalid_argument`; otherwise `_n -= units` and a new
handle against the same semaphore holds `units`.  The semaphore is
never signalled. -/
def SemUnits.split (u : SemUnits) (s : Semaphore) (units : Nat) :
    Except SemErr (SemUnits × SemUnits) × Semaphore :=
  if units > u.n then (Except.error SemErr.invalidArgument, s)
  else (Except.ok (⟨u.n - units⟩, ⟨units⟩), s)

/-- `semaphore_units::adopt(other)`: `_n += other.release()`; the
adopted handle ends empty and the semaphore is never signalled. -/
def SemUnits.adopt (u other : SemUnits) (s : Semaphore) :
    (SemUnits × SemUnits) × Semaphore :=
  ((⟨u.n + other.n⟩, ⟨0⟩), s)

/-- Free function `consume_units(sem, units)`: `sem.consume(units)` and
a handle over `units` whose drop will signal them back. -/
def consume_units (s : Semaphore) (units : Nat) : Semaphore × SemUnits :=
  (s.consume units, ⟨units⟩)

/-- Free function `try_get_units(sem, units)`: `try_wait` and, on
success, a handle. -/
def try_get_units (s : Semaphore) (units : Nat) :
    Semaphore × Option SemUnits :=
  let r := s.try_wait units
  (r.1, if r.2 then some ⟨units⟩ else none)

/-- One semaphore operation, for reachability over operation
sequences.  `acquire_units` is the `get_units` path; `cancel` is a
timer-expiry or abort callback on a queued waiter. -/
inductive Op where
  | wait (nr : Nat)
  | wait_until (now deadline nr : Nat)
  | wait_abortable (abort_requested : Bool) (nr : Nat)
  | acquire_units (nr : Nat)
  | try_wait (nr : Nat)
  | signal (nr : Nat)
  | consume (nr : Nat)
  | broken (e : SemErr)
  | cancel (wid : Nat) (e : SemErr)
deriving DecidableEq, Repr

/-- State transition of one operation (completions discarded). -/
def applyOp (op : Op) (s : Semaphore) : Semaphore :=
  match op with
  | Op.wait nr => (s.wait nr).1
  | Op.wait_until now dl nr => (s.wait_until now dl nr).1
  | Op.wait_abortable ar nr => (s.wait_abortable ar nr).1
  | Op.acquire_units nr => (get_units s nr).1
  | Op.try_wait nr => (s.try_wait nr).1
  | Op.signal nr => (s.signal nr).1
  | Op.consume nr => s.consume nr
  | Op.broken e => (s.broken e).1
  | Op.cancel wid e => (s.cancel wid e).1

/-- Run a sequence of operations from a state. -/
def run (ops : List Op) (s : Semaphore) : Semaphore :=
  ops.foldl (fun t op => applyOp op t) s

def Op.isCancel : Op → Bool
  | Op.cancel _ _ => true
  | _ => false

def Op.isBroken : Op → Bool
  | Op.broken _ => true
  | _ => false

/-- The head-of-line invariant of the spec: when the counter is
non-negative, the wait list is empty or its front requests strictly
more than the counter. -/
def holInvB (s : Semaphore) : Bool :=
  match s.wait_list with
  | [] => true
  | w :: _ => decide (0 ≤ s.count → s.count < (w.nr : Int))

/-- Total units requested by a list of waiters, as an integer. -/
def sumNr (q : List Waiter) : Int := (((q.map Waiter.nr).sum : Nat) : Int)

/-- The identities of a list of waiters. -/
def idsOf (q : List Waiter) : List Nat := q.map Waiter.id

/-- A closed system of `semaphore_units` handles over one semaphore:
`handles` lists the `_n` fields of the live handles, `signaled` is the
total number of units handle operations have passed to
`basic_semaphore::signal`, and `released` the total dropped via
`release()` without signalling. -/
structure HSys where
  handles : List Nat
  signaled : Nat
  released : Nat
deriving DecidableEq, Repr

/-- Handle operations on the system: move construction of a new handle
from the one at index `i`, move assignment of handle `j` into handle
`i`, `split`, `adopt`, `release`, destruction, `return_units` and
`return_all`. -/
inductive HOp where
  | move_ctor (i : Nat)
  | move_assign (i j : Nat)
  | split (i k : Nat)
  | adopt (i j : Nat)
  | release (i : Nat)
  | destroy (i : Nat)
  | return_units (i k : Nat)
  | return_all (i : Nat)
deriving DecidableEq, Repr

/-- Semantics of one handle operation, following the source:
move construction exchanges the source `_n` field with zero; move
assignment first runs `return_all()` on the target (signalling its held
units) and then exchanges; `split` moves `k` units into a fresh handle;
`adopt` moves the units of the adopted handle via `release()`; `release`
drops units without signalling; destruction runs `return_all()`;
`return_units` signals `k` held units (with the zero-amount and
overdraw guards).  Out-of-range indices leave the system unchanged. -/
def applyHOp (op : HOp) (sys : HSys) : HSys :=
  match op with
  | HOp.move_ctor i =>
    if i < sys.handles.length then
      { sys with handles := (sys.handles.set i 0) ++ [sys.handles.getD i 0] }
    else sys
  | HOp.move_assign i j =>
    if i < sys.handles.length ∧ j < sys.handles.length then
      let hs1 := sys.handles.set i 0
      { sys with handles := (hs1.set i (hs1.getD j 0)).set j 0,
                 signaled := sys.signaled + sys.handles.getD i 0 }
    else sys
  | HOp.split i k =>
    if i < sys.handles.length ∧ k ≤ sys.handles.getD i 0 then
      { sys with handles := (sys.handles.set i (sys.handles.getD i 0 - k)) ++ [k] }
    else sys
  | HOp.adopt i j =>
    if i < sys.handles.length ∧ j < sys.handles.length then
      let hs1 := sys.handles.set j 0
      { sys with handles := hs1.set i (hs1.getD i 0 + sys.handles.getD j 0) }
    else sys
  | HOp.release i =>
    if i < sys.handles.length then
      { sys with handles := sys.handles.set i 0,
                 released := sys.released + sys.handles.getD i 0 }
    else sys
  | HOp.destroy i =>
    if i < sys.handles.length then
      { sys with handles := sys.handles.eraseIdx i,
                 signaled := sys.signaled + sys.handles.getD i 0 }
    else sys
  | HOp.return_units i k =>
    if i < sys.handles.length ∧ k ≠ 0 ∧ k ≤ sys.handles.getD i 0 then
      { sys with handles := sys.handles.set i (sys.handles.getD i 0 - k),
                 signaled := sys.signaled + k }
    else sys
  | HOp.return_all i =>
    if i < sys.handles.length then
      { sys with handles := sys.handles.set i 0,
                 signaled := sys.signaled + sys.handles.getD i 0 }
    else sys

/-- Run a sequence of handle operations. -/
def runH (ops : List HOp) (sys : HSys) : HSys :=
  ops.foldl (fun t op => applyHOp op t) sys

/-- Conservation quantity: units still held, plus units signalled back,
plus units released without signalling. -/
def HSys.total (sys : HSys) : Nat :=
  sys.handles.sum + sys.signaled + sys.released

/-! ### Basic lemmas -/

theorem availCond_iff (c : Int) (nr : Nat) :
    availCond c nr = true ↔ (nr : Int) ≤ c := by
  unfold availCond
  simp only [Bool.and_eq_true, decide_eq_true_eq]
  omega

@[simp] theorem sumNr_nil : sumNr [] = 0 := rfl

@[simp] theorem sumNr_cons (w : Waiter) (q : List Waiter) :
    sumNr (w :: q) = (w.nr : Int) + sumNr q := by
  unfold sumNr
  simp only [List.map_cons, List.sum_cons]
  push_cast
  ring

@[simp] theorem idsOf_nil : idsOf [] = [] := rfl

@[simp] theorem idsOf_cons (w : Waiter) (q : List Waiter) :
    idsOf (w :: q) = w.id :: idsOf q := rfl

/-- Full characterisation of the wake loop: some prefix of length `k` of
the queue is served in order; each served waiter was satisfiable at its
turn; the counter is charged by the served requests; and the loop stops
exactly when the remaining head (if any) is unsatisfiable. -/
theorem wakeLoop_chars (c : Int) (q : List Waiter) :
    ∃ k, k ≤ q.length ∧
      wakeLoop c q = (c - sumNr (q.take k), q.drop k, idsOf (q.take k)) ∧
      (∀ j, j < k → ∃ w, q[j]? = some w ∧
          (w.nr : Int) ≤ c - sumNr (q.take j)) ∧
      (∀ w, (q.drop k).head? = some w →
          ¬ ((w.nr : Int) ≤ c - sumNr (q.take k))) := by
  induction q generalizing c with
  | nil =>
    refine ⟨0, by simp, ?_, ?_, ?_⟩
    · simp [wakeLoop]
    · intro j hj; omega
    · intro w hw; simp at hw
  | cons w rest ih =>
    by_cases hc : availCond c w.nr = true
    · obtain ⟨k, hk, heq, hstep, hstop⟩ := ih (c - w.nr)
      refine ⟨k + 1, by simpa using hk, ?_, ?_, ?_⟩
      · have harith : c - ((w.nr : Int) + sumNr (rest.take k)) =
            c - (w.nr : Int) - sumNr (rest.take k) := by ring
        simp only [wakeLoop, hc, if_true, heq, List.take_succ_cons,
          List.drop_succ_cons, sumNr_cons, idsOf_cons, harith]
      · intro j hj
        cases j with
        | zero =>
          refine ⟨w, by simp, ?_⟩
          simp only [List.take_zero, sumNr_nil, sub_zero]
          exact (availCond_iff c w.nr).mp hc
        | succ j =>
          obtain ⟨w2, hw2, hle⟩ := hstep j (by omega)
          refine ⟨w2, by simpa using hw2, ?_⟩
          simp only [List.take_succ_cons, sumNr_cons]
          omega
      · intro w2 hw2
        simp only [List.drop_succ_cons] at hw2
        have := hstop w2 hw2
        simp only [List.take_succ_cons, sumNr_cons]
        omega
    · refine ⟨0, by simp, ?_, ?_, ?_⟩
      · simp [wakeLoop, hc]
      · intro j hj; omega
      · intro w2 hw2
        simp only [List.drop_zero, List.head?_cons, Option.some.injEq] at hw2
        subst hw2
        simp only [List.take_zero, sumNr_nil, sub_zero]
        intro hle
        exact hc ((availCond_iff c w.nr).mpr hle)

/-- C1: `signal(nr)` on a non-broken semaphore increments the counter by
`nr` and then serves waiters strictly in FIFO order: a prefix of length
`k` of the wait queue is removed, each served waiter was satisfiable at
its turn and is fulfilled with success in arrival order, the counter is
decreased by every served request, and the loop stops with the
remaining head (if any) unsatisfiable — so a waiter behind an
unsatisfiable head is never served. -/
theorem signal_wake_fifo (s : Semaphore) (nr : Nat) (h : s.ex = none) :
    ∃ k, k ≤ s.wait_list.length ∧
      (s.signal nr).1.count = s.count + nr - sumNr (s.wait_list.take k) ∧
      (s.signal nr).1.wait_list = s.wait_list.drop k ∧
      (s.signal nr).1.ex = none ∧
      (s.signal nr).2 =
        (idsOf (s.wait_list.take k)).map (fun i => (i, Completion.success)) ∧
      (∀ j, j < k → ∃ w, s.wait_list[j]? = some w ∧
          (w.nr : Int) ≤ s.count + nr - sumNr (s.wait_list.take j)) ∧
      (∀ w, ((s.signal nr).1.wait_list).head? = some w →
          ¬ ((w.nr : Int) ≤ (s.signal nr).1.count)) := by
  obtain ⟨k, hk, heq, hstep, hstop⟩ := wakeLoop_chars (s.count + nr) s.wait_list
  refine ⟨k, hk, ?_, ?_, ?_, ?_, hstep, ?_⟩
  · simp only [Semaphore.signal, h, heq]
  · simp only [Semaphore.signal, h, heq]
  · simp only [Semaphore.signal, h, heq]
  · simp only [Semaphore.signal, h, heq]
  · intro w hw
    simp only [Semaphore.signal, h, heq] at hw ⊢
    exact hstop w hw

/-- Witness for C1 at a concrete semaphore: counter 3, waiters
requesting 2 and 5, signalled by 4; both waiters are served. -/
theorem signal_wake_fifo_check :
    Semaphore.ex ⟨3, none, [⟨0, 2⟩, ⟨1, 5⟩], 2⟩ = none ∧
    ∃ k, k ≤ (Semaphore.wait_list ⟨3, none, [⟨0, 2⟩, ⟨1, 5⟩], 2⟩).length ∧
      (Semaphore.signal ⟨3, none, [⟨0, 2⟩, ⟨1, 5⟩], 2⟩ 4).1.count =
        Semaphore.count ⟨3, none, [⟨0, 2⟩, ⟨1, 5⟩], 2⟩ + 4 -
          sumNr ((Semaphore.wait_list ⟨3, none, [⟨0, 2⟩, ⟨1, 5⟩], 2⟩).take k) ∧
      (Semaphore.signal ⟨3, none, [⟨0, 2⟩, ⟨1, 5⟩], 2⟩ 4).1.wait_list =
        (Semaphore.wait_list ⟨3, none, [⟨0, 2⟩, ⟨1, 5⟩], 2⟩).drop k ∧
      (Semaphore.signal ⟨3, none, [⟨0, 2⟩, ⟨1, 5⟩], 2⟩ 4).1.ex = none ∧
      (Semaphore.signal ⟨3, none, [⟨0, 2⟩, ⟨1, 5⟩], 2⟩ 4).2 =
        (idsOf ((Semaphore.wait_list ⟨3, none, [⟨0, 2⟩, ⟨1, 5⟩], 2⟩).take k)).map
          (fun i => (i, Completion.success)) ∧
      (∀ j, j < k → ∃ w,
          (Semaphore.wait_list ⟨3, none, [⟨0, 2⟩, ⟨1, 5⟩], 2⟩)[j]? = some w ∧
          (w.nr : Int) ≤ Semaphore.count ⟨3, none, [⟨0, 2⟩, ⟨1, 5⟩], 2⟩ + 4 -
            sumNr ((Semaphore.wait_list ⟨3, none, [⟨0, 2⟩, ⟨1, 5⟩], 2⟩).take j)) ∧
      (∀ w, ((Semaphore.signal ⟨3, none, [⟨0, 2⟩, ⟨1, 5⟩], 2⟩ 4).1.wait_list).head? =
            some w →
          ¬ ((w.nr : Int) ≤ (Semaphore.signal ⟨3, none, [⟨0, 2⟩, ⟨1, 5⟩], 2⟩ 4).1.count)) :=
  ⟨rfl, signal_wake_fifo ⟨3, none, [⟨0, 2⟩, ⟨1, 5⟩], 2⟩ 4 rfl⟩

/-! ### The head-of-line invariant under operation sequences -/

theorem holInvB_iff (s : Semaphore) :
    holInvB s = true ↔
      ∀ w, s.wait_list.head? = some w →
        0 ≤ s.count → s.count < (w.nr : Int) := by
  unfold holInvB
  cases hq : s.wait_list with
  | nil => simp
  | cons w t =>
    simp only [hq, List.head?_cons, Option.some.injEq, decide_eq_true_eq,
      forall_eq_apply_imp_iff]
    constructor
    · intro h w2 hw2
      subst hw2
      exact h
    · intro h
      exact h w rfl

theorem holInvB_of_empty (s : Semaphore) (h : s.wait_list = []) :
    holInvB s = true := by
  unfold holInvB
  rw [h]

/-- The wake loop stops with an unsatisfiable head (if any head
remains). -/
theorem wakeLoop_stop (c : Int) (q : List Waiter) :
    ∀ w, ((wakeLoop c q).2.1).head? = some w →
      ¬ ((w.nr : Int) ≤ (wakeLoop c q).1) := by
  induction q generalizing c with
  | nil => intro w hw; simp [wakeLoop] at hw
  | cons w rest ih =>
    intro w2 hw2
    by_cases hc : availCond c w.nr = true
    · simp only [wakeLoop, hc, if_true] at hw2 ⊢
      exact ih (c - w.nr) w2 hw2
    · rw [Bool.not_eq_true] at hc
      simp only [wakeLoop, hc, Bool.false_eq_true, if_false, List.head?_cons,
        Option.some.injEq] at hw2 ⊢
      subst hw2
      intro hle
      rw [(availCond_iff c w.nr).mpr hle] at hc
      exact Bool.noConfusion hc

/-- If the head of the queue (when the counter is non-negative) is
unsatisfiable, the wake loop does nothing. -/
theorem wakeLoop_noop (c : Int) (q : List Waiter)
    (h : ∀ w, q.head? = some w → 0 ≤ c → c < (w.nr : Int)) :
    wakeLoop c q = (c, q, []) := by
  cases q with
  | nil => rfl
  | cons w rest =>
    have hc : availCond c w.nr = false := by
      rw [Bool.eq_false_iff]
      intro hc
      have := (availCond_iff c w.nr).mp hc
      have := h w rfl (by omega)
      omega
    simp [wakeLoop, hc]

/-- Any single operation other than a cancellation preserves the
head-of-line invariant. -/
theorem applyOp_holInvB (op : Op) (s : Semaphore)
    (hInv : holInvB s = true) (hop : op.isCancel = false) :
    holInvB (applyOp op s) = true := by
  have henq : ∀ nr : Nat, s.may_proceed nr = false →
      holInvB { s with wait_list := s.wait_list ++ [⟨s.next_id, nr⟩],
                       next_id := s.next_id + 1 } = true := by
    intro nr hmp
    rw [holInvB_iff]
    intro w hw h0
    cases hq : s.wait_list with
    | nil =>
      rw [hq] at hw
      simp only [List.nil_append, List.head?_cons, Option.some.injEq] at hw
      subst hw
      simp only
      unfold Semaphore.may_proceed Semaphore.has_available_units at hmp
      rw [hq] at hmp
      simp only [List.isEmpty_nil, Bool.and_true] at hmp
      have : ¬ ((nr : Int) ≤ s.count) := by
        intro hle
        rw [(availCond_iff s.count nr).mpr hle] at hmp
        exact Bool.noConfusion hmp
      omega
    | cons w0 t =>
      rw [hq] at hw
      simp only [List.cons_append, List.head?_cons, Option.some.injEq] at hw
      subst hw
      have := (holInvB_iff s).mp hInv w0 (by rw [hq]; rfl) h0
      exact this
  have hready : ∀ c : Int, s.wait_list = [] →
      holInvB { s with count := c } = true := by
    intro c hq
    exact holInvB_of_empty _ (by simpa using hq)
  have hwaitcase : ∀ nr : Nat, holInvB (s.wait nr).1 = true := by
    intro nr
    unfold Semaphore.wait
    by_cases hmp : s.may_proceed nr = true
    · have hq : s.wait_list = [] := by
        unfold Semaphore.may_proceed at hmp
        simp only [Bool.and_eq_true, List.isEmpty_iff] at hmp
        exact hmp.2
      simp only [hmp, if_true]
      exact hready _ hq
    · rw [Bool.not_eq_true] at hmp
      simp only [hmp, Bool.false_eq_true, if_false]
      cases hex : s.ex with
      | some e => simpa [hex] using hInv
      | none => simpa [hex] using henq nr hmp
  cases op with
  | wait nr => exact hwaitcase nr
  | wait_until now dl nr =>
    simp only [applyOp]
    unfold Semaphore.wait_until
    by_cases hmp : s.may_proceed nr = true
    · have hq : s.wait_list = [] := by
        unfold Semaphore.may_proceed at hmp
        simp only [Bool.and_eq_true, List.isEmpty_iff] at hmp
        exact hmp.2
      simp only [hmp, if_true]
      exact hready _ hq
    · rw [Bool.not_eq_true] at hmp
      simp only [hmp, Bool.false_eq_true, if_false]
      cases hex : s.ex with
      | some e => simpa [hex] using hInv
      | none =>
        by_cases hdl : dl ≤ now
        · simpa [hex, hdl] using hInv
        · simpa [hex, hdl] using henq nr hmp
  | wait_abortable ar nr =>
    simp only [applyOp]
    unfold Semaphore.wait_abortable
    by_cases hmp : s.may_proceed nr = true
    · have hq : s.wait_list = [] := by
        unfold Semaphore.may_proceed at hmp
        simp only [Bool.and_eq_true, List.isEmpty_iff] at hmp
        exact hmp.2
      simp only [hmp, if_true]
      exact hready _ hq
    · rw [Bool.not_eq_true] at hmp
      simp only [hmp, Bool.false_eq_true, if_false]
      cases hex : s.ex with
      | some e => simpa [hex] using hInv
      | none =>
        cases ar with
        | true => simpa [hex] using hInv
        | false => simpa [hex] using henq nr hmp
  | acquire_units nr =>
    simp only [applyOp, get_units]
    exact hwaitcase nr
  | try_wait nr =>
    simp only [applyOp]
    unfold Semaphore.try_wait
    by_cases hmp : s.may_proceed nr = true
    · have hq : s.wait_list = [] := by
        unfold Semaphore.may_proceed at hmp
        simp only [Bool.and_eq_true, List.isEmpty_iff] at hmp
        exact hmp.2
      simp only [hmp, if_true]
      exact hready _ hq
    · rw [Bool.not_eq_true] at hmp
      simpa [hmp] using hInv
  | signal nr =>
    simp only [applyOp]
    unfold Semaphore.signal
    cases hex : s.ex with
    | some e => simpa using hInv
    | none =>
      rw [holInvB_iff]
      intro w hw h0
      simp only at hw h0 ⊢
      have := wakeLoop_stop (s.count + nr) s.wait_list w hw
      omega
  | consume nr =>
    simp only [applyOp]
    unfold Semaphore.consume
    cases hex : s.ex with
    | some e => simpa using hInv
    | none =>
      rw [holInvB_iff]
      intro w hw h0
      simp only at hw h0 ⊢
      have := (holInvB_iff s).mp hInv w hw (by omega)
      omega
  | broken e =>
    simp only [applyOp]
    exact holInvB_of_empty _ rfl
  | cancel wid e => simp [Op.isCancel] at hop

/-- Running any cancellation-free sequence preserves the head-of-line
invariant. -/
theorem run_holInvB (ops : List Op) (s : Semaphore)
    (hInv : holInvB s = true)
    (h : ∀ op ∈ ops, op.isCancel = false) :
    holInvB (run ops s) = true := by
  induction ops generalizing s with
  | nil => exact hInv
  | cons op ops ih =>
    have : run (op :: ops) s = run ops (applyOp op s) := rfl
    rw [this]
    exact ih (applyOp op s)
      (applyOp_holInvB op s hInv (h op (List.mem_cons_self op ops)))
      (fun o ho => h o (List.mem_cons_of_mem op ho))

/-- C2 (amended): in every state reachable from a fresh semaphore by
waits, `get_units`, `signal`, `consume`, `try_wait`, `broken` and
handle returns — but with no timer/abort cancellation — a non-negative
counter means the wait queue is empty or its front requests strictly
more than the counter. -/
theorem hol_invariant_no_cancel (c0 : Nat) (ops : List Op)
    (h : ∀ op ∈ ops, op.isCancel = false) :
    ∀ w, ((run ops (Semaphore.mk0 c0)).wait_list).head? = some w →
      0 ≤ (run ops (Semaphore.mk0 c0)).count →
      (run ops (Semaphore.mk0 c0)).count < (w.nr : Int) :=
  (holInvB_iff _).mp
    (run_holInvB ops (Semaphore.mk0 c0) (holInvB_of_empty _ rfl) h)

/-- Witness for the amended C2: a concrete cancellation-free history. -/
theorem hol_invariant_no_cancel_check :
    (∀ op ∈ [Op.wait 10, Op.wait 3, Op.signal 2, Op.consume 1],
        op.isCancel = false) ∧
    ∀ w, ((run [Op.wait 10, Op.wait 3, Op.signal 2, Op.consume 1]
            (Semaphore.mk0 5)).wait_list).head? = some w →
      0 ≤ (run [Op.wait 10, Op.wait 3, Op.signal 2, Op.consume 1]
            (Semaphore.mk0 5)).count →
      (run [Op.wait 10, Op.wait 3, Op.signal 2, Op.consume 1]
            (Semaphore.mk0 5)).count < (w.nr : Int) :=
  ⟨by decide, hol_invariant_no_cancel 5
    [Op.wait 10, Op.wait 3, Op.signal 2, Op.consume 1] (by decide)⟩

/-- C2 counterexample: from a fresh semaphore with 5 units, enqueue
waiters for 10 and for 3, then let the timer of the front waiter fire (a
cancellation, one of the steps the claim allows).  The reached state
has counter 5 ≥ 0 and a front waiter requesting only 3 ≤ 5: the claimed
invariant fails, because no wake loop runs on the cancellation path. -/
theorem hol_invariant_cancel_cex :
    run [Op.wait 10, Op.wait 3, Op.cancel 0 SemErr.timedOut]
        (Semaphore.mk0 5) = ⟨5, none, [⟨1, 3⟩], 2⟩ ∧
    0 ≤ (run [Op.wait 10, Op.wait 3, Op.cancel 0 SemErr.timedOut]
        (Semaphore.mk0 5)).count ∧
    ((run [Op.wait 10, Op.wait 3, Op.cancel 0 SemErr.timedOut]
        (Semaphore.mk0 5)).wait_list).head? = some ⟨1, 3⟩ ∧
    ((3 : Nat) : Int) ≤ (run [Op.wait 10, Op.wait 3,
        Op.cancel 0 SemErr.timedOut] (Semaphore.mk0 5)).count := by
  refine ⟨by decide, by decide, by decide, by decide⟩

/-! ### The broken state is absorbing -/

theorem may_proceed_pos_of_zero (s : Semaphore) (h2 : s.count = 0)
    (nr : Nat) (hnr : 1 ≤ nr) : s.may_proceed nr = false := by
  unfold Semaphore.may_proceed Semaphore.has_available_units availCond
  rw [h2]
  have hd : ¬ ((nr : Int) ≤ (0 : Int)) := by omega
  simp [hd]

theorem may_proceed_zero_of_broken (s : Semaphore) (h2 : s.count = 0)
    (h3 : s.wait_list = []) : s.may_proceed 0 = true := by
  unfold Semaphore.may_proceed Semaphore.has_available_units availCond
  rw [h2, h3]
  simp

/-- In the state immediately after `broken` (latched error, zero
counter, drained queue), every operation other than another `broken`
leaves the state exactly as it is. -/
theorem applyOp_broken_fixed (op : Op) (s : Semaphore) (e : SemErr)
    (h1 : s.ex = some e) (h2 : s.count = 0) (h3 : s.wait_list = [])
    (hop : op.isBroken = false) : applyOp op s = s := by
  have hsub : s.count - (((0 : Nat) : Int)) = s.count := by simp
  have hwait : ∀ nr : Nat, (s.wait nr).1 = s := by
    intro nr
    cases nr with
    | zero =>
      unfold Semaphore.wait
      rw [may_proceed_zero_of_broken s h2 h3]
      simp only [if_true, hsub]
    | succ n =>
      unfold Semaphore.wait
      rw [may_proceed_pos_of_zero s h2 (n + 1) (by omega), h1]
      simp
  cases op with
  | wait nr => exact hwait nr
  | wait_until now dl nr =>
    show (s.wait_until now dl nr).1 = s
    cases nr with
    | zero =>
      unfold Semaphore.wait_until
      rw [may_proceed_zero_of_broken s h2 h3]
      simp only [if_true, hsub]
    | succ n =>
      unfold Semaphore.wait_until
      rw [may_proceed_pos_of_zero s h2 (n + 1) (by omega), h1]
      simp
  | wait_abortable ar nr =>
    show (s.wait_abortable ar nr).1 = s
    cases nr with
    | zero =>
      unfold Semaphore.wait_abortable
      rw [may_proceed_zero_of_broken s h2 h3]
      simp only [if_true, hsub]
    | succ n =>
      unfold Semaphore.wait_abortable
      rw [may_proceed_pos_of_zero s h2 (n + 1) (by omega), h1]
      simp
  | acquire_units nr =>
    show (get_units s nr).1 = s
    unfold get_units
    exact hwait nr
  | try_wait nr =>
    show (s.try_wait nr).1 = s
    cases nr with
    | zero =>
      unfold Semaphore.try_wait
      rw [may_proceed_zero_of_broken s h2 h3]
      simp only [if_true, hsub]
    | succ n =>
      unfold Semaphore.try_wait
      rw [may_proceed_pos_of_zero s h2 (n + 1) (by omega)]
      simp
  | signal nr =>
    show (s.signal nr).1 = s
    unfold Semaphore.signal
    rw [h1]
  | consume nr =>
    show s.consume nr = s
    unfold Semaphore.consume
    rw [h1]
  | broken e2 => simp [Op.isBroken] at hop
  | cancel wid e2 =>
    show (s.cancel wid e2).1 = s
    unfold Semaphore.cancel
    rw [h3]
    simp

/-- Any `broken`-free sequence leaves a just-broken state untouched. -/
theorem run_broken_fixed (ops : List Op) (s : Semaphore) (e : SemErr)
    (h1 : s.ex = some e) (h2 : s.count = 0) (h3 : s.wait_list = [])
    (hops : ∀ op ∈ ops, op.isBroken = false) : run ops s = s := by
  induction ops with
  | nil => rfl
  | cons op ops ih =>
    have hfix := applyOp_broken_fixed op s e h1 h2 h3
      (hops op (List.mem_cons_self op ops))
    show run ops (applyOp op s) = s
    rw [hfix]
    exact ih (fun o ho => hops o (List.mem_cons_of_mem op ho))

/-- C3 (amended): after `broken(e)`, along any further `broken`-free
history, every `wait`, `wait` with deadline, `wait` with abort source
and `get_units` for a positive request `nr ≥ 1` completes immediately
with the latched error `e`.  (A zero request instead succeeds: see the
counterexample.) -/
theorem broken_latches_error (s0 : Semaphore) (e : SemErr) (ops : List Op)
    (hops : ∀ op ∈ ops, op.isBroken = false) (nr : Nat) (hnr : 1 ≤ nr) :
    ((run ops (s0.broken e).1).wait nr).2 = WaitOutcome.failed e ∧
    (∀ now deadline,
      ((run ops (s0.broken e).1).wait_until now deadline nr).2 =
        WaitOutcome.failed e) ∧
    (∀ ar, ((run ops (s0.broken e).1).wait_abortable ar nr).2 =
        WaitOutcome.failed e) ∧
    (get_units (run ops (s0.broken e).1) nr).2 = UnitsOutcome.failed e := by
  have hrun : run ops (s0.broken e).1 = (s0.broken e).1 :=
    run_broken_fixed ops (s0.broken e).1 e rfl rfl rfl hops
  rw [hrun]
  have hmp : ((s0.broken e).1).may_proceed nr = false :=
    may_proceed_pos_of_zero _ rfl nr hnr
  have hex : ((s0.broken e).1).ex = some e := rfl
  refine ⟨?_, ?_, ?_, ?_⟩
  · unfold Semaphore.wait
    rw [hmp, hex]
    simp
  · intro now deadline
    unfold Semaphore.wait_until
    rw [hmp, hex]
    simp
  · intro ar
    unfold Semaphore.wait_abortable
    rw [hmp, hex]
    simp
  · unfold get_units Semaphore.wait
    rw [hmp, hex]
    simp

/-- Witness for the amended C3 on a concrete history. -/
theorem broken_latches_error_check :
    (∀ op ∈ [Op.signal 2], op.isBroken = false) ∧ 1 ≤ 1 ∧
    (((run [Op.signal 2] ((Semaphore.mk0 3).broken (SemErr.custom 7)).1).wait 1).2 =
        WaitOutcome.failed (SemErr.custom 7) ∧
      (∀ now deadline,
        ((run [Op.signal 2]
            ((Semaphore.mk0 3).broken (SemErr.custom 7)).1).wait_until
              now deadline 1).2 = WaitOutcome.failed (SemErr.custom 7)) ∧
      (∀ ar, ((run [Op.signal 2]
            ((Semaphore.mk0 3).broken (SemErr.custom 7)).1).wait_abortable
              ar 1).2 = WaitOutcome.failed (SemErr.custom 7)) ∧
      (get_units (run [Op.signal 2]
          ((Semaphore.mk0 3).broken (SemErr.custom 7)).1) 1).2 =
        UnitsOutcome.failed (SemErr.custom 7)) :=
  ⟨by decide, by decide,
    broken_latches_error (Semaphore.mk0 3) (SemErr.custom 7) [Op.signal 2]
      (by decide) 1 (by decide)⟩

/-- C3 counterexample: `broken(e)` latches the error, yet a subsequent
`wait(0)` hits `may_proceed(0)` first (counter 0, empty queue) and
completes with a ready future rather than with `e`. -/
theorem broken_wait_zero_cex :
    ((Semaphore.mk0 1).broken (SemErr.custom 7)).1.ex =
      some (SemErr.custom 7) ∧
    ((((Semaphore.mk0 1).broken (SemErr.custom 7)).1.wait 0).2 =
      WaitOutcome.ready) := by
  refine ⟨by decide, by decide⟩

/-- C4 (amended): after `broken`, along any further `broken`-free
history, `signal(nr)` and `consume(nr)` leave the state unchanged for
every `nr`, `try_wait(nr)` returns false and changes nothing for every
`nr ≥ 1` (while `try_wait(0)` returns true: see the counterexample),
and `current()` returns 0. -/
theorem broken_ops_inert (s0 : Semaphore) (e : SemErr) (ops : List Op)
    (hops : ∀ op ∈ ops, op.isBroken = false) :
    (∀ m, ((run ops (s0.broken e).1).signal m).1 =
        run ops (s0.broken e).1) ∧
    (∀ m, (run ops (s0.broken e).1).consume m =
        run ops (s0.broken e).1) ∧
    (∀ m, 1 ≤ m → (run ops (s0.broken e).1).try_wait m =
        (run ops (s0.broken e).1, false)) ∧
    (run ops (s0.broken e).1).current = 0 := by
  have hrun : run ops (s0.broken e).1 = (s0.broken e).1 :=
    run_broken_fixed ops (s0.broken e).1 e rfl rfl rfl hops
  rw [hrun]
  refine ⟨?_, ?_, ?_, ?_⟩
  · intro m
    unfold Semaphore.signal
    rfl
  · intro m
    unfold Semaphore.consume
    rfl
  · intro m hm
    unfold Semaphore.try_wait
    rw [may_proceed_pos_of_zero _ rfl m hm]
    simp
  · rfl

/-- Witness for the amended C4 on a concrete history. -/
theorem broken_ops_inert_check :
    (∀ op ∈ [Op.consume 4], op.isBroken = false) ∧
    ((∀ m, ((run [Op.consume 4]
          ((Semaphore.mk0 2).broken SemErr.brokenDefault).1).signal m).1 =
        run [Op.consume 4]
          ((Semaphore.mk0 2).broken SemErr.brokenDefault).1) ∧
      (∀ m, (run [Op.consume 4]
          ((Semaphore.mk0 2).broken SemErr.brokenDefault).1).consume m =
        run [Op.consume 4]
          ((Semaphore.mk0 2).broken SemErr.brokenDefault).1) ∧
      (∀ m, 1 ≤ m → (run [Op.consume 4]
          ((Semaphore.mk0 2).broken SemErr.brokenDefault).1).try_wait m =
        (run [Op.consume 4]
          ((Semaphore.mk0 2).broken SemErr.brokenDefault).1, false)) ∧
      (run [Op.consume 4]
          ((Semaphore.mk0 2).broken SemErr.brokenDefault).1).current = 0) :=
  ⟨by decide, broken_ops_inert (Semaphore.mk0 2) SemErr.brokenDefault
    [Op.consume 4] (by decide)⟩

/-- C4 counterexample: on a broken semaphore, `try_wait(0)` passes the
`may_proceed(0)` gate and returns true, not false. -/
theorem broken_try_wait_zero_cex :
    (((Semaphore.mk0 0).broken SemErr.brokenDefault).1.try_wait 0).2 =
      true := by decide

/-! ### Zero-unit waits and past deadlines -/

/-- C5 (amended): whenever the counter is non-negative and the wait
queue is empty — which in particular covers every broken semaphore —
`wait(0)` succeeds immediately and leaves the state (and hence the
queue) completely unchanged.  (With a negative counter or a non-empty
queue, `wait(0)` instead enqueues a waiter: see the counterexample.) -/
theorem wait_zero_ready (s : Semaphore) (h1 : 0 ≤ s.count)
    (h2 : s.wait_list = []) : s.wait 0 = (s, WaitOutcome.ready) := by
  have hmp : s.may_proceed 0 = true := by
    unfold Semaphore.may_proceed Semaphore.has_available_units availCond
    rw [h2]
    simp [h1]
  unfold Semaphore.wait
  rw [hmp]
  have hsub : s.count - (((0 : Nat) : Int)) = s.count := by simp
  simp only [if_true, hsub]

/-- Witness for the amended C5 at a concrete state. -/
theorem wait_zero_ready_check :
    0 ≤ Semaphore.count ⟨4, none, [], 9⟩ ∧
    Semaphore.wait_list ⟨4, none, [], 9⟩ = [] ∧
    Semaphore.wait ⟨4, none, [], 9⟩ 0 =
      (⟨4, none, [], 9⟩, WaitOutcome.ready) :=
  ⟨by decide, rfl, wait_zero_ready ⟨4, none, [], 9⟩ (by decide) rfl⟩

/-- C5 counterexample: after `consume(1)` on a fresh semaphore with no
units the counter is −1; `wait(0)` then fails `may_proceed(0)` and
enqueues a zero-unit waiter instead of succeeding immediately. -/
theorem wait_zero_enqueue_cex :
    (((Semaphore.mk0 0).consume 1).wait 0).2 = WaitOutcome.pending 0 ∧
    (((Semaphore.mk0 0).consume 1).wait 0).1.wait_list = [⟨0, 0⟩] := by
  refine ⟨by decide, by decide⟩

/-- C6: on a non-broken semaphore, a request that cannot be satisfied
immediately (counter below the request, or a non-empty wait queue)
together with a deadline at or before the current time fails
immediately with the policy timeout error and enqueues nothing: the
state is unchanged. -/
theorem wait_until_past_deadline (s : Semaphore) (now deadline nr : Nat)
    (h1 : s.ex = none) (h2 : s.count < (nr : Int) ∨ s.wait_list ≠ [])
    (h3 : deadline ≤ now) :
    s.wait_until now deadline nr = (s, WaitOutcome.failed SemErr.timedOut) := by
  have hmp : s.may_proceed nr = false := by
    unfold Semaphore.may_proceed Semaphore.has_available_units availCond
    rcases h2 with h2 | h2
    · have : ¬ ((nr : Int) ≤ s.count) := by omega
      simp [this]
    · cases hq : s.wait_list with
      | nil => exact absurd hq h2
      | cons w t => simp
  unfold Semaphore.wait_until
  rw [hmp, h1]
  simp [h3]

/-- Witness for C6 at a concrete state: one unit available, three
requested, deadline already passed. -/
theorem wait_until_past_deadline_check :
    Semaphore.ex ⟨1, none, [], 0⟩ = none ∧
    (Semaphore.count ⟨1, none, [], 0⟩ < ((3 : Nat) : Int) ∨
      Semaphore.wait_list ⟨1, none, [], 0⟩ ≠ []) ∧
    (5 : Nat) ≤ 8 ∧
    Semaphore.wait_until ⟨1, none, [], 0⟩ 8 5 3 =
      (⟨1, none, [], 0⟩, WaitOutcome.failed SemErr.timedOut) :=
  ⟨rfl, Or.inl (by decide), by decide,
    wait_until_past_deadline ⟨1, none, [], 0⟩ 8 5 3 rfl
      (Or.inl (by decide)) (by decide)⟩

/-! ### Handle algebra -/

/-- C7: with `0 ≤ k ≤ n`, `split(k)` carves `k` units into a fresh
handle leaving `n − k`, and adopting the fresh handle back yields a
handle holding the original `n`; neither operation signals, so the
semaphore is unchanged across the pair. -/
theorem split_adopt_roundtrip (u : SemUnits) (s : Semaphore) (k : Nat)
    (h : k ≤ u.n) :
    u.split s k = (Except.ok (⟨u.n - k⟩, ⟨k⟩), s) ∧
    SemUnits.adopt ⟨u.n - k⟩ ⟨k⟩ s = ((⟨u.n⟩, ⟨0⟩), s) ∧
    SemUnits.count (SemUnits.adopt ⟨u.n - k⟩ ⟨k⟩ s).1.1 = u.count := by
  have hnk : u.n - k + k = u.n := Nat.sub_add_cancel h
  refine ⟨?_, ?_, ?_⟩
  · unfold SemUnits.split
    rw [if_neg (by omega)]
  · unfold SemUnits.adopt
    rw [hnk]
  · unfold SemUnits.adopt SemUnits.count
    exact hnk

/-- Witness for C7 at a concrete handle of 5 units split at 2. -/
theorem split_adopt_roundtrip_check :
    (2 : Nat) ≤ SemUnits.n ⟨5⟩ ∧
    SemUnits.split ⟨5⟩ (Semaphore.mk0 1) 2 =
      (Except.ok (⟨3⟩, ⟨2⟩), Semaphore.mk0 1) ∧
    SemUnits.adopt ⟨3⟩ ⟨2⟩ (Semaphore.mk0 1) =
      ((⟨5⟩, ⟨0⟩), Semaphore.mk0 1) ∧
    SemUnits.count (SemUnits.adopt ⟨3⟩ ⟨2⟩ (Semaphore.mk0 1)).1.1 =
      SemUnits.count ⟨5⟩ :=
  ⟨by decide, (split_adopt_roundtrip ⟨5⟩ (Semaphore.mk0 1) 2 (by decide)).1,
    (split_adopt_roundtrip ⟨5⟩ (Semaphore.mk0 1) 2 (by decide)).2.1,
    (split_adopt_roundtrip ⟨5⟩ (Semaphore.mk0 1) 2 (by decide)).2.2⟩

/-- Under the head-of-line invariant, signalling zero units changes
nothing: the wake loop cannot fire. -/
theorem signal_zero_noop (s : Semaphore) (hInv : holInvB s = true) :
    (s.signal 0).1 = s := by
  obtain ⟨c, ex, q, nid⟩ := s
  unfold Semaphore.signal
  cases ex with
  | some e => rfl
  | none =>
    simp only
    have hadd : c + (((0 : Nat)) : Int) = c := by simp
    have hwl : wakeLoop (c + ((0 : Nat) : Int)) q = (c, q, []) := by
      rw [hadd]
      exact wakeLoop_noop c q ((holInvB_iff ⟨c, none, q, nid⟩).mp hInv)
    simp only [hwl]

/-- C8 (amended): on a non-broken semaphore satisfying the head-of-line
invariant — which holds in every cancellation-free reachable state —
`consume_units(sem, n)` followed by dropping the returned handle (the
`return_all` of the destructor) restores the semaphore exactly: the counter
returns to its pre-consume value and no waiter is woken by the
repayment. -/
theorem consume_units_drop_restores (s : Semaphore) (units : Nat)
    (h1 : s.ex = none) (hInv : holInvB s = true) :
    (SemUnits.return_all (consume_units s units).2
      (consume_units s units).1).2 = s := by
  obtain ⟨c, ex, q, nid⟩ := s
  simp only at h1
  subst h1
  unfold consume_units Semaphore.consume
  simp only
  unfold SemUnits.return_all
  by_cases hu : units = 0
  · subst hu
    simp
  · rw [if_pos (by simpa using hu)]
    simp only
    unfold Semaphore.signal
    simp only
    have hadd : c - (units : Int) + (units : Int) = c := by ring
    have hwl : wakeLoop (c - (units : Int) + (units : Int)) q =
        (c, q, []) := by
      rw [hadd]
      exact wakeLoop_noop c q ((holInvB_iff ⟨c, none, q, nid⟩).mp hInv)
    simp only [hwl]

/-- Witness for C8: counter 2 with a pending waiter for 4; consume 3
then drop the handle; the counter comes back to 2. -/
theorem consume_units_drop_restores_check :
    Semaphore.ex ⟨2, none, [⟨0, 4⟩], 1⟩ = none ∧
    holInvB ⟨2, none, [⟨0, 4⟩], 1⟩ = true ∧
    (SemUnits.return_all (consume_units ⟨2, none, [⟨0, 4⟩], 1⟩ 3).2
      (consume_units ⟨2, none, [⟨0, 4⟩], 1⟩ 3).1).2 =
      ⟨2, none, [⟨0, 4⟩], 1⟩ :=
  ⟨rfl, by decide,
    consume_units_drop_restores ⟨2, none, [⟨0, 4⟩], 1⟩ 3 rfl (by decide)⟩

/-- C9 (amended): for a handle holding `n` units, `return_units(k)`
with `1 ≤ k ≤ n` shrinks the handle to `n − k`, signals the semaphore
by `k` (running its wake loop), and returns the remaining count;
`return_units(0)` returns `n` and leaves the semaphore completely
untouched (the code skips the signal, so the wake loop does not run);
and with `k > n` it fails with `std::invalid_argument`, leaving both
the handle and the semaphore unchanged. -/
theorem return_units_spec (u : SemUnits) (s : Semaphore) (k : Nat) :
    (1 ≤ k → k ≤ u.n → u.return_units s k =
      (Except.ok (⟨u.n - k⟩, u.n - k), (s.signal k).1)) ∧
    u.return_units s 0 = (Except.ok (u, u.n), s) ∧
    (u.n < k → u.return_units s k =
      (Except.error SemErr.invalidArgument, s)) := by
  refine ⟨?_, ?_, ?_⟩
  · intro h0 hk
    unfold SemUnits.return_units
    rw [if_pos (by omega), if_neg (by omega)]
  · unfold SemUnits.return_units
    simp
  · intro hk
    unfold SemUnits.return_units
    by_cases h0 : k = 0
    · omega
    · rw [if_pos (by simpa using h0), if_pos (by omega)]

/-- Witness for the amended C9: a handle of 5 units over a semaphore
with a waiter for 6; returning 4 wakes the waiter via the wake loop,
returning 9 overdraws and fails. -/
theorem return_units_spec_check :
    ((1 : Nat) ≤ 4 ∧ (4 : Nat) ≤ SemUnits.n ⟨5⟩ ∧
      SemUnits.return_units ⟨5⟩ ⟨3, none, [⟨0, 6⟩], 1⟩ 4 =
        (Except.ok (⟨1⟩, 1), (Semaphore.signal ⟨3, none, [⟨0, 6⟩], 1⟩ 4).1)) ∧
    SemUnits.return_units ⟨5⟩ ⟨3, none, [⟨0, 6⟩], 1⟩ 0 =
      (Except.ok (⟨5⟩, 5), ⟨3, none, [⟨0, 6⟩], 1⟩) ∧
    (SemUnits.n ⟨5⟩ < 9 ∧
      SemUnits.return_units ⟨5⟩ ⟨3, none, [⟨0, 6⟩], 1⟩ 9 =
        (Except.error SemErr.invalidArgument, ⟨3, none, [⟨0, 6⟩], 1⟩)) :=
  ⟨⟨by decide, by decide,
      (return_units_spec ⟨5⟩ ⟨3, none, [⟨0, 6⟩], 1⟩ 4).1 (by decide) (by decide)⟩,
    (return_units_spec ⟨5⟩ ⟨3, none, [⟨0, 6⟩], 1⟩ 0).2.1,
    ⟨by decide, (return_units_spec ⟨5⟩ ⟨3, none, [⟨0, 6⟩], 1⟩ 9).2.2 (by decide)⟩⟩

/-- C8 counterexample: the non-broken state with counter 5 and a lone
waiter requesting 3 is reachable (enqueue 10 then 3 from counter 5 and
cancel the front waiter — the state of the C2 counterexample).  There,
`consume_units(2)` followed by dropping the handle ends with counter 2,
not 5: the repayment signal wakes the waiter. -/
theorem consume_units_wake_cex :
    run [Op.wait 10, Op.wait 3, Op.cancel 0 SemErr.timedOut]
        (Semaphore.mk0 5) = ⟨5, none, [⟨1, 3⟩], 2⟩ ∧
    Semaphore.ex ⟨5, none, [⟨1, 3⟩], 2⟩ = none ∧
    Semaphore.count ⟨5, none, [⟨1, 3⟩], 2⟩ = 5 ∧
    (SemUnits.return_all (consume_units ⟨5, none, [⟨1, 3⟩], 2⟩ 2).2
      (consume_units ⟨5, none, [⟨1, 3⟩], 2⟩ 2).1).2.count = 2 := by
  refine ⟨by decide, by decide, by decide, by decide⟩

/-- C9 counterexample: in the same reachable state,
`return_units(0)` leaves the semaphore untouched, whereas signalling
the semaphore by 0 — which the claim promises, wake loop included —
would serve the waiter.  The two disagree, so `return_units(0)` does
not signal the semaphore by 0. -/
theorem return_units_zero_cex :
    SemUnits.return_units ⟨5⟩ ⟨5, none, [⟨1, 3⟩], 2⟩ 0 =
      (Except.ok (⟨5⟩, 5), ⟨5, none, [⟨1, 3⟩], 2⟩) ∧
    (Semaphore.signal ⟨5, none, [⟨1, 3⟩], 2⟩ 0).1 =
      ⟨2, none, [], 2⟩ ∧
    ((⟨2, none, [], 2⟩ : Semaphore) ≠ ⟨5, none, [⟨1, 3⟩], 2⟩) := by
  refine ⟨rfl, by decide, by decide⟩

/-! ### Conservation of units across handle moves -/

theorem getD_set_self (l : List Nat) (i v : Nat) (h : i < l.length) :
    (l.set i v).getD i 0 = v := by
  induction l generalizing i with
  | nil => simp at h
  | cons a t ih =>
    cases i with
    | zero => rfl
    | succ j =>
      simp only [List.set_cons_succ, List.getD_cons_succ]
      exact ih j (by simpa using h)

theorem getD_set_ne (l : List Nat) (i j v : Nat) (h : i ≠ j) :
    (l.set i v).getD j 0 = l.getD j 0 := by
  induction l generalizing i j with
  | nil => simp
  | cons a t ih =>
    cases i with
    | zero =>
      cases j with
      | zero => exact absurd rfl h
      | succ j2 => rfl
    | succ i2 =>
      cases j with
      | zero => rfl
      | succ j2 =>
        simp only [List.set_cons_succ, List.getD_cons_succ]
        exact ih i2 j2 (by omega)

theorem getD_append_lt (l l2 : List Nat) (i : Nat) (h : i < l.length) :
    (l ++ l2).getD i 0 = l.getD i 0 := by
  induction l generalizing i with
  | nil => simp at h
  | cons a t ih =>
    cases i with
    | zero => rfl
    | succ j =>
      simp only [List.cons_append, List.getD_cons_succ]
      exact ih j (by simpa using h)

theorem getD_append_len (l : List Nat) (x : Nat) :
    (l ++ [x]).getD l.length 0 = x := by
  induction l with
  | nil => rfl
  | cons a t ih =>
    simp only [List.cons_append, List.length_cons, List.getD_cons_succ]
    exact ih

theorem sum_set_getD (l : List Nat) (i v : Nat) (h : i < l.length) :
    (l.set i v).sum + l.getD i 0 = l.sum + v := by
  induction l generalizing i with
  | nil => simp at h
  | cons a t ih =>
    cases i with
    | zero =>
      simp only [List.set_cons_zero, List.sum_cons, List.getD_cons_zero]
      omega
    | succ j =>
      simp only [List.set_cons_succ, List.sum_cons, List.getD_cons_succ]
      have := ih j (by simpa using h)
      omega

theorem sum_eraseIdx_getD (l : List Nat) (i : Nat) (h : i < l.length) :
    (l.eraseIdx i).sum + l.getD i 0 = l.sum := by
  induction l generalizing i with
  | nil => simp at h
  | cons a t ih =>
    cases i with
    | zero =>
      simp only [List.eraseIdx_cons_zero, List.getD_cons_zero, List.sum_cons]
      omega
    | succ j =>
      simp only [List.eraseIdx_cons_succ, List.sum_cons, List.getD_cons_succ]
      have := ih j (by simpa using h)
      omega

/-- Every single handle operation preserves the conservation quantity
held + signalled + released. -/
theorem applyHOp_total (op : HOp) (sys : HSys) :
    (applyHOp op sys).total = sys.total := by
  obtain ⟨hs, sg, rl⟩ := sys
  cases op with
  | move_ctor i =>
    simp only [applyHOp, HSys.total]
    by_cases h : i < hs.length
    · rw [if_pos h]
      simp only [List.sum_append, List.sum_cons, List.sum_nil]
      have := sum_set_getD hs i 0 h
      omega
    · rw [if_neg h]
  | move_assign i j =>
    simp only [applyHOp, HSys.total]
    by_cases h : i < hs.length ∧ j < hs.length
    · rw [if_pos h]
      simp only
      have hlen1 : i < (hs.set i 0).length := by simpa using h.1
      have hlen2 : j < ((hs.set i 0).set i ((hs.set i 0).getD j 0)).length := by
        simpa using h.2
      have e1 := sum_set_getD hs i 0 h.1
      have e2 := sum_set_getD (hs.set i 0) i ((hs.set i 0).getD j 0) hlen1
      have e3 := sum_set_getD ((hs.set i 0).set i ((hs.set i 0).getD j 0)) j 0
        (by simpa using h.2)
      have hv : (((hs.set i 0).set i ((hs.set i 0).getD j 0))).getD j 0 =
          (hs.set i 0).getD j 0 := by
        by_cases hij : i = j
        · subst hij
          exact getD_set_self (hs.set i 0) i _ hlen1
        · exact getD_set_ne (hs.set i 0) i j _ hij
      have h0 : (hs.set i 0).getD i 0 = 0 := getD_set_self hs i 0 h.1
      omega
    · rw [if_neg h]
  | split i k =>
    simp only [applyHOp, HSys.total]
    by_cases h : i < hs.length ∧ k ≤ hs.getD i 0
    · rw [if_pos h]
      simp only [List.sum_append, List.sum_cons, List.sum_nil]
      have := sum_set_getD hs i (hs.getD i 0 - k) h.1
      omega
    · rw [if_neg h]
  | adopt i j =>
    simp only [applyHOp, HSys.total]
    by_cases h : i < hs.length ∧ j < hs.length
    · rw [if_pos h]
      simp only
      have e1 := sum_set_getD hs j 0 h.2
      have e2 := sum_set_getD (hs.set j 0) i
        ((hs.set j 0).getD i 0 + hs.getD j 0) (by simpa using h.1)
      omega
    · rw [if_neg h]
  | release i =>
    simp only [applyHOp, HSys.total]
    by_cases h : i < hs.length
    · rw [if_pos h]
      simp only
      have := sum_set_getD hs i 0 h
      omega
    · rw [if_neg h]
  | destroy i =>
    simp only [applyHOp, HSys.total]
    by_cases h : i < hs.length
    · rw [if_pos h]
      simp only
      have := sum_eraseIdx_getD hs i h
      omega
    · rw [if_neg h]
  | return_units i k =>
    simp only [applyHOp, HSys.total]
    by_cases h : i < hs.length ∧ k ≠ 0 ∧ k ≤ hs.getD i 0
    · rw [if_pos h]
      simp only
      have := sum_set_getD hs i (hs.getD i 0 - k) h.1
      have hk := h.2.2
      omega
    · rw [if_neg h]
  | return_all i =>
    simp only [applyHOp, HSys.total]
    by_cases h : i < hs.length
    · rw [if_pos h]
      simp only
      have := sum_set_getD hs i 0 h
      omega
    · rw [if_neg h]

/-- C10: a move-constructed handle drains its source to zero; move
assignment first signals the units held by the target back to the semaphore
and drains the moved-from handle; and across any sequence of moves,
splits, adopts, releases, returns and destructions the quantity
held-plus-signalled-plus-released is conserved — so starting from
handles over `G` granted units with nothing yet signalled, the units
ever passed to `signal` can never exceed `G`: no unit is returned
twice. -/
theorem units_move_no_double_return :
    (∀ (sys : HSys) (i : Nat), i < sys.handles.length →
      (applyHOp (HOp.move_ctor i) sys).handles.getD i 0 = 0 ∧
      (applyHOp (HOp.move_ctor i) sys).handles.getD sys.handles.length 0 =
        sys.handles.getD i 0 ∧
      (applyHOp (HOp.move_ctor i) sys).signaled = sys.signaled) ∧
    (∀ (sys : HSys) (i j : Nat), i < sys.handles.length →
      j < sys.handles.length → i ≠ j →
      (applyHOp (HOp.move_assign i j) sys).signaled =
        sys.signaled + sys.handles.getD i 0 ∧
      (applyHOp (HOp.move_assign i j) sys).handles.getD i 0 =
        sys.handles.getD j 0 ∧
      (applyHOp (HOp.move_assign i j) sys).handles.getD j 0 = 0) ∧
    (∀ (ops : List HOp) (sys : HSys), (runH ops sys).total = sys.total) := by
  refine ⟨?_, ?_, ?_⟩
  · intro sys i h
    obtain ⟨hs, sg, rl⟩ := sys
    simp only at h
    simp only [applyHOp]
    rw [if_pos h]
    refine ⟨?_, ?_, rfl⟩
    · simp only
      rw [getD_append_lt _ _ i (by simpa using h)]
      exact getD_set_self hs i 0 h
    · simp only
      have hlen : hs.length = (hs.set i 0).length := by simp
      rw [hlen, getD_append_len]
  · intro sys i j hi hj hij
    obtain ⟨hs, sg, rl⟩ := sys
    simp only at hi hj
    simp only [applyHOp]
    rw [if_pos ⟨hi, hj⟩]
    refine ⟨rfl, ?_, ?_⟩
    · simp only
      rw [getD_set_ne _ j i _ (by omega),
        getD_set_self (hs.set i 0) i _ (by simpa using hi),
        getD_set_ne hs i j 0 hij]
    · simp only
      exact getD_set_self _ j 0 (by simpa using hj)
  · intro ops
    induction ops with
    | nil => intro sys; rfl
    | cons op ops ih =>
      intro sys
      show (runH ops (applyHOp op sys)).total = sys.total
      rw [ih (applyHOp op sys), applyHOp_total]

/-- Witness for C10 on concrete systems: moving out of a 3-unit handle,
move-assigning over a 3-unit target, and a split/destroy history over 7
granted units. -/
theorem units_move_no_double_return_check :
    ((0 : Nat) < (HSys.handles ⟨[3], 0, 0⟩).length ∧
      (applyHOp (HOp.move_ctor 0) ⟨[3], 0, 0⟩).handles.getD 0 0 = 0) ∧
    ((0 : Nat) < (HSys.handles ⟨[3, 2], 0, 0⟩).length ∧
      (1 : Nat) < (HSys.handles ⟨[3, 2], 0, 0⟩).length ∧
      (applyHOp (HOp.move_assign 0 1) ⟨[3, 2], 0, 0⟩).signaled =
        HSys.signaled ⟨[3, 2], 0, 0⟩ + (HSys.handles ⟨[3, 2], 0, 0⟩).getD 0 0) ∧
    (runH [HOp.split 0 2, HOp.return_units 1 1, HOp.destroy 0]
        ⟨[7], 0, 0⟩).total = HSys.total ⟨[7], 0, 0⟩ :=
  ⟨⟨by decide, (units_move_no_double_return.1 ⟨[3], 0, 0⟩ 0 (by decide)).1⟩,
    ⟨by decide, by decide,
      (units_move_no_double_return.2.1 ⟨[3, 2], 0, 0⟩ 0 1 (by decide)
        (by decide) (by decide)).1⟩,
    units_move_no_double_return.2.2
      [HOp.split 0 2, HOp.return_units 1 1, HOp.destroy 0] ⟨[7], 0, 0⟩⟩

end SeastarSem
